import Mathlib

/-!
# reg-radar: shallow embedding and verification of the harvesting core

This file embeds, in Lean 4, the algorithmic core of the reg-radar
repository (a scheduled web-monitoring pipeline for government regulatory
sources) and proves/refutes the specification claims about it.

Embedded source functions:
* `src/run_save.py` — `normalize_url` (URL canonicalization) and
  `save_items` (idempotent upsert keyed by canonical `doc_url`);
* `src/pipeline.py` — `normalize_country`, `looks_like_http`,
  `candidate_urls` (URL variant generation, including the fragment of
  `urllib.parse.urlparse` it uses) and `fetch_first_ok` (resilient
  fetch over an ordered candidate list with linear backoff);
* `src/alerts.py` — `parse_overrides`-shaped override tables,
  `check_silent_sources` (staleness detection) and the
  only-if-issues notification-suppression branch of `main`.

Strings that undergo character-level processing are modelled as
`List Char`; record fields only compared for equality use `String`.
Python truthiness of a string (`not s`) is emptiness; `str.strip()` is
modelled over the ASCII whitespace characters. Timestamps are modelled
as integers (seconds); `timedelta(hours=h)` is `h * 3600` seconds.
Network I/O is modelled by an oracle passed as a function argument, and
fallible library calls (`urlparse` raising `ValueError`) by `Except`.
-/

set_option autoImplicit false

namespace RegRadar

/-! ## Python string primitives -/

/-- ASCII whitespace recognized by Python's `str.strip()` (the inputs this
model covers are ASCII). -/
def pyIsSpace (c : Char) : Bool :=
  c == ' ' || c == '\t' || c == '\n' || c == '\r' || c == '\x0b' || c == '\x0c'

/-- Python `str.lstrip()` (whitespace). -/
def lstripWs (l : List Char) : List Char := l.dropWhile pyIsSpace

/-- Python `str.rstrip()` (whitespace). -/
def rstripWs (l : List Char) : List Char := (l.reverse.dropWhile pyIsSpace).reverse

/-- Python `str.strip()` (whitespace). -/
def pyStrip (l : List Char) : List Char := rstripWs (lstripWs l)

/-- Python `str.rstrip("/")`: drop every trailing `'/'`. -/
def rstripSlash (l : List Char) : List Char := (l.reverse.dropWhile (fun c => c == '/')).reverse

/-- Python `str.lstrip("/")`: drop every leading `'/'`. -/
def lstripSlash (l : List Char) : List Char := l.dropWhile (fun c => c == '/')

/-- Python `str.startswith(p)`. -/
def startsWithL (p s : List Char) : Bool :=
  match p, s with
  | [], _ => true
  | _ :: _, [] => false
  | a :: ps, b :: ss => a == b && startsWithL ps ss

/-- Python `needle in hay` on strings: contiguous-substring containment
(the empty needle is contained in everything). -/
def containsL (needle hay : List Char) : Bool :=
  match hay with
  | [] => needle.isEmpty
  | _ :: t => startsWithL needle hay || containsL needle t

/-- Case-insensitive literal match: if `s` starts with `pat` (given in
lowercase) when compared via `Char.toLower`, return the rest of `s`. -/
def dropCI (pat s : List Char) : Option (List Char) :=
  match pat, s with
  | [], rest => some rest
  | _ :: _, [] => none
  | p :: ps, c :: cs => if c.toLower = p then dropCI ps cs else none

/-- Python `x or d` for an optional string `x`: `d` when `x` is `None` or
empty, else the string itself. -/
def pyOr (o : Option String) (d : String) : String :=
  match o with
  | none => d
  | some s => if s = "" then d else s

/-! ## `src/run_save.py` — `normalize_url`

```python
WWW_RE = re.compile(r"^https?://(www\.)?", re.I)

def normalize_url(u: str) -> str:
    if not u:
        return u
    u = WWW_RE.sub("https://", u.strip())
    return u.rstrip("/")
```
-/

/-- The scheme part of `WWW_RE`: match `https?://` case-insensitively at
the start and return the remainder.  `https://` and `http://` cannot both
match the same string, so trying the longer alternative first is exactly
the regex's greedy `s?`. -/
def schemeDrop (s : List Char) : Option (List Char) :=
  match dropCI "https://".data s with
  | some r => some r
  | none => dropCI "http://".data s

/-- Model of `WWW_RE.sub("https://", s)`: replace one leading `https?://(www\.)?`
(case-insensitive) by `https://`; leave strings without a scheme alone. -/
def wwwSub (s : List Char) : List Char :=
  match schemeDrop s with
  | none => s
  | some rest =>
    match dropCI "www.".data rest with
    | some rest2 => "https://".data ++ rest2
    | none => "https://".data ++ rest

/-- Embedding of `run_save.normalize_url`. -/
def normalize_url (u : List Char) : List Char :=
  if u = [] then u
  else rstripSlash (wwwSub (pyStrip u))

/-! ## `src/pipeline.py` — `normalize_country`, `looks_like_http`

```python
def normalize_country(c: str) -> str:
    c = (c or "").strip()
    if c in ("UAE", "KSA", "Qatar"):
        return c
    return c or "UAE"
```
The argument can be `None` (callers pass `source.get("country")`), hence
`Option`. -/

/-- Embedding of `pipeline.normalize_country`. -/
def normalize_country (c : Option (List Char)) : List Char :=
  let s := pyStrip (c.getD [])
  if s = "UAE".data ∨ s = "KSA".data ∨ s = "Qatar".data then s
  else if s = [] then "UAE".data else s

/-- Embedding of `pipeline.looks_like_http`:
```python
def looks_like_http(u: str) -> bool:
    if not u:
        return False
    ul = u.strip().lower()
    return ul.startswith("http://") or ul.startswith("https://")
``` -/
def looks_like_http (u : List Char) : Bool :=
  if u.isEmpty then false
  else
    let ul := (pyStrip u).map Char.toLower
    startsWithL "http://".data ul || startsWithL "https://".data ul

/-! ## `src/pipeline.py` — `candidate_urls` and the `urlparse` fragment it uses

`candidate_urls` calls `urllib.parse.urlparse(base_url)` and reads only
`netloc` and `path`.  The stdlib parser (CPython `urllib/parse.py`):
removes `'\t'`, `'\r'`, `'\n'` from the URL; splits the scheme at the
first `':'`; takes `netloc` as the run after `"//"` up to the first of
`'/'`, `'?'`, `'#'`; raises `ValueError("Invalid IPv6 URL")` when the
netloc contains `'['` without `']'` or vice versa; and takes `path` up
to the first of `'?'`, `'#'`.  `candidate_urls` only ever passes URLs
whose scheme is `http`/`https` (it prefixes `https://` otherwise), so
scheme detection is modelled as a case-insensitive `https?://` match;
a string without that prefix parses with empty netloc and the string
itself (minus query/fragment) as path, which matches `urlparse` for the
scheme-less inputs reachable here. -/

/-- Characters ending the netloc portion of a URL. -/
def isNetlocEnd (c : Char) : Bool := c == '/' || c == '?' || c == '#'

/-- Model of `urlsplit`'s removal of `'\t'`, `'\r'`, `'\n'` from the URL. -/
def stripUnsafe (url : List Char) : List Char :=
  url.filter (fun c => !(c == '\t' || c == '\r' || c == '\n'))

/-- The netloc `urlparse` extracts: the run after `https?://` up to the
first of `'/'`, `'?'`, `'#'` (empty for scheme-less input). -/
def parsedNetloc (url : List Char) : List Char :=
  match schemeDrop (stripUnsafe url) with
  | none => []
  | some rest => rest.takeWhile (fun c => !isNetlocEnd c)

/-- CPython's check behind `ValueError("Invalid IPv6 URL")` (a `'['`
without `']'` in the netloc, or vice versa).  CPython ≥ 3.11 validates
bracketed netlocs further (the bracketed part must be an IP literal);
the model only relies on claims that are version-independent: a
bracket-free netloc never raises, and an unbalanced bracket always
does. -/
def invalidIpv6 (netloc : List Char) : Bool :=
  (netloc.contains '[' && !netloc.contains ']') ||
  (netloc.contains ']' && !netloc.contains '[')

/-- Netloc/path extraction and IPv6 validation once a `//` authority is
present: the part of the modelled `urlparse` after the scheme. -/
def urlparseTail (rest : List Char) : Except (List Char) (List Char × List Char) :=
  let netloc := rest.takeWhile (fun c => !isNetlocEnd c)
  if invalidIpv6 netloc then .error "Invalid IPv6 URL".data
  else
    let after := rest.dropWhile (fun c => !isNetlocEnd c)
    .ok (netloc, after.takeWhile (fun c => !(c == '?' || c == '#')))

/-- The fragment of `urllib.parse.urlparse` used by `candidate_urls`:
`(netloc, path)` on success, the `ValueError` message on failure. -/
def urlparseNP (url : List Char) : Except (List Char) (List Char × List Char) :=
  let u := stripUnsafe url
  match schemeDrop u with
  | none => .ok ([], u.takeWhile (fun c => !(c == '?' || c == '#')))
  | some rest => urlparseTail rest

/-- Insertion-order deduplication: the model of iterating a small Python
set that was built by inserting elements in a known order.  (CPython's
iteration order of a set is a fixed function of its contents within one
interpreter process; insertion order is the representative this model
uses for it.) -/
def dedupGo (seen : List (List Char)) : List (List Char) → List (List Char)
  | [] => []
  | a :: t => if seen.contains a then dedupGo seen t else a :: dedupGo (a :: seen) t

/-- Run `dedupGo` from an empty seen-set. -/
def dedupL (l : List (List Char)) : List (List Char) := dedupGo [] l

/-- Python `set.add` on a set represented as an insertion-ordered
duplicate-free list. -/
def setAdd (l : List (List Char)) (x : List Char) : List (List Char) :=
  if l.contains x then l else l ++ [x]

/-! ### `pipeline.candidate_urls`
```python
def candidate_urls(base_url: str) -> list[str]:
    if not base_url:
        return []
    base_url = base_url.strip()
    if not looks_like_http(base_url):
        base_url = "https://" + base_url.lstrip("/")
    u = urlparse(base_url)
    host = u.netloc.lower()
    path = (u.path or "/")
    if "hukoomi.gov.qa" in host:
        path = "/en/policies-and-strategies"
    if "mcit.gov.qa" in host and "/policies" in path and "reports" not in path:
        path = "/en/policies-and-reports/"
    if "ncsa.gov.qa" in host and (path == "/" or path == ""):
        path = "/en/"
    base_norm = f"https://{host}{path}"
    variants = {base_norm}
    if host.startswith("www."):
        variants.add(f"https://{host[4:]}{path}")
    else:
        variants.add(f"https://www.{host}{path}")
    variants = {v.rstrip("/") + ("/" if path.endswith("/") else "") for v in variants}
    return list(variants)
```
The `urlparse` call can raise `ValueError`, hence the `Except`.
-/

/-- The normalization `candidate_urls` applies to its argument before
handing it to `urlparse`: strip, then prefix `https://` (after removing
leading slashes) when no `http(s)://` scheme is present. -/
def cuPrep (base_url : List Char) : List Char :=
  let b0 := pyStrip base_url
  if looks_like_http b0 then b0 else "https://".data ++ lstripSlash b0

/-- Variant construction of `candidate_urls` from the parsed
`(netloc, path)`: host lowering, the per-domain path overrides, the
`www.` toggle and the trailing-slash normalization over the set of
variants. -/
def candidateVariants (netloc rawPath : List Char) : List (List Char) :=
  let host := netloc.map Char.toLower
  let path1 := if rawPath = [] then "/".data else rawPath
  let path2 := if containsL "hukoomi.gov.qa".data host then "/en/policies-and-strategies".data else path1
  let path3 :=
    if containsL "mcit.gov.qa".data host && containsL "/policies".data path2 &&
        !containsL "reports".data path2
    then "/en/policies-and-reports/".data else path2
  let path :=
    if containsL "ncsa.gov.qa".data host && (path3 = "/".data ∨ path3 = [])
    then "/en/".data else path3
  let base_norm := "https://".data ++ host ++ path
  let variants :=
    if startsWithL "www.".data host
    then setAdd [base_norm] ("https://".data ++ host.drop 4 ++ path)
    else setAdd [base_norm] ("https://".data ++ "www.".data ++ host ++ path)
  let endSlash : List Char := if startsWithL "/".data path.reverse then "/".data else []
  dedupL (variants.map (fun v => rstripSlash v ++ endSlash))

/-- Embedding of `pipeline.candidate_urls`. -/
def candidate_urls (base_url : List Char) : Except (List Char) (List (List Char)) :=
  if base_url = [] then .ok []
  else
    match urlparseNP (cuPrep base_url) with
    | .error e => .error e
    | .ok (netloc, rawPath) => .ok (candidateVariants netloc rawPath)

/-! ## `src/pipeline.py` — `fetch_first_ok`

```python
async def fetch_first_ok(client, urls, retries=2):
    for attempt in range(retries + 1):
        last_err = None
        for u in urls:
            try:
                r = await client.get(u)
                if r.status_code == 200:
                    return r
                last_err = f"HTTP {r.status_code} for {u}"
            except Exception as e:
                last_err = f"{type(e).__name__}: {e} for {u}"
        if attempt < retries:
            await asyncio.sleep(1.2 * (attempt + 1))
    if last_err:
        log(f"HTML: error {last_err}")
    return None
```
The network is modelled by an oracle `g : Nat → String → GetOutcome`
giving, per `(attempt, url)`, either a response or a raised exception.
The function's observable behaviour is its return value plus the list of
backoff sleeps it performs; a sleep of `1.2 * (attempt + 1)` seconds is
recorded by its integer multiplier `attempt + 1` (the `1.2`-second unit
is a fixed scale factor; floats themselves are not modelled). -/

/-- An HTTP response as far as `fetch_first_ok` inspects it. -/
structure HttpResp where
  status : Nat
  url : String
deriving DecidableEq, Repr

/-- Result of one `client.get`: a response, or a raised exception whose
rendering `f"{type(e).__name__}: {e}"` is the carried string. -/
inductive GetOutcome where
  | resp (r : HttpResp)
  | exn (msg : String)

/-- One pass of the inner `for u in urls` loop, threading `last_err`.
Returns the first 200-response (if any) and the final `last_err`. -/
def passFirstOk (g : String → GetOutcome) : List String → Option String → Option HttpResp × Option String
  | [], le => (none, le)
  | u :: rest, le =>
    match g u with
    | .resp r =>
      if r.status == 200 then (some r, le)
      else passFirstOk g rest (some ("HTTP " ++ toString r.status ++ " for " ++ u))
    | .exn m => passFirstOk g rest (some (m ++ " for " ++ u))

/-- The outer `for attempt in range(retries + 1)` loop over the remaining
attempt numbers; the second component records the backoff multipliers of
the sleeps performed (`attempt + 1` for each failed non-final pass). -/
def fetchGo (g : Nat → String → GetOutcome) (urls : List String) : List Nat → Option HttpResp × List Nat
  | [] => (none, [])
  | a :: rest =>
    match (passFirstOk (g a) urls none).1 with
    | some r => (some r, [])
    | none =>
      if rest.isEmpty then (none, [])
      else ((fetchGo g urls rest).1, (a + 1) :: (fetchGo g urls rest).2)

/-- Embedding of `pipeline.fetch_first_ok` (result and performed sleeps). -/
def fetch_first_ok (g : Nat → String → GetOutcome) (urls : List String) (retries : Nat) :
    Option HttpResp × List Nat :=
  fetchGo g urls (List.range (retries + 1))

/-- All `(attempt, url)` pairs in the order `fetch_first_ok` visits them:
full candidate passes, candidates in list order within a pass. -/
def lexTries (attempts : List Nat) (urls : List String) : List (Nat × String) :=
  attempts.flatMap (fun a => urls.map (fun u => (a, u)))

/-- Whether the oracle answers a given `(attempt, url)` pair with an
HTTP 200 response. -/
def hit200 (g : Nat → String → GetOutcome) (p : Nat × String) : Option HttpResp :=
  match g p.1 p.2 with
  | .resp r => if r.status == 200 then some r else none
  | .exn _ => none

/-- Whether one `client.get` within a fixed pass yields an HTTP 200. -/
def hitPass (g : String → GetOutcome) (u : String) : Option HttpResp :=
  match g u with
  | .resp r => if r.status == 200 then some r else none
  | .exn _ => none

/-! ## `src/run_save.py` — `save_items` and the ingestion store

```python
def save_items(supa, items: list[dict]):
    rows = []
    for it in items:
        doc = normalize_url(it.get("doc_url") or "")
        src = normalize_url(it.get("source_url") or "")
        if not doc:
            continue
        rows.append({...})
    if not rows:
        return 0
    data = supa.table("ingest_items").upsert(rows, on_conflict="doc_url").execute().data
    return len(data or [])
```
-/

/-- The dictionary fields of an item that `run_save.save_items` reads
(each may be absent/None in the Python dict). -/
structure IngestItem where
  country : Option String
  authority : Option String
  title : Option String
  doc_url : Option String
  source_url : Option String
  ingest_source_type : Option String
  created_at : Option String
deriving DecidableEq, Repr

/-- The row dictionary `save_items` builds per item. -/
structure PayloadRow where
  country : Option String
  authority : Option String
  title : String
  doc_url : String
  source_url : String
  ingest_source_type : String
  created_at : Option String
deriving DecidableEq, Repr

/-- The per-item body of the `for it in items` loop of `save_items`:
`none` when the item is skipped (`if not doc: continue`). -/
def rowOf (it : IngestItem) : Option PayloadRow :=
  let doc := normalize_url (pyOr it.doc_url "").data
  let src := normalize_url (pyOr it.source_url "").data
  if doc = [] then none
  else some
    { country := it.country
      authority := it.authority
      title := pyOr it.title ""
      doc_url := String.mk doc
      source_url := String.mk src
      ingest_source_type := pyOr it.ingest_source_type "html"
      created_at := it.created_at }

/-- The `rows` list `save_items` builds. -/
def buildRows (items : List IngestItem) : List PayloadRow := items.filterMap rowOf

/-- The payload row of an item that passes the `if not doc: continue`
filter (named for use in proofs; equal to what `rowOf` yields then). -/
def payloadOf (it : IngestItem) : PayloadRow :=
  { country := it.country
    authority := it.authority
    title := pyOr it.title ""
    doc_url := String.mk (normalize_url (pyOr it.doc_url "").data)
    source_url := String.mk (normalize_url (pyOr it.source_url "").data)
    ingest_source_type := pyOr it.ingest_source_type "html"
    created_at := it.created_at }

/-- A stored `ingest_items` row.  Beyond the columns `save_items` writes,
the table carries the enrichment columns `enriched_at`/`regulation_id`
owned by the downstream enrichment stage. -/
structure StoredRow where
  country : Option String
  authority : Option String
  title : String
  doc_url : String
  source_url : String
  ingest_source_type : String
  created_at : Option String
  enriched_at : Option String
  regulation_id : Option Nat
deriving DecidableEq, Repr

/-- Modelled from the spec: the persistence store's
`upsert(..., on_conflict="doc_url")` conflict-update, which "update[s]
mutable fields (title, metadata) without ... resetting
`enriched_at`/`regulation_id`" — the payload columns are written, the
enrichment columns of the existing row are kept. -/
def applyPayload (r : StoredRow) (p : PayloadRow) : StoredRow :=
  { country := p.country
    authority := p.authority
    title := p.title
    doc_url := p.doc_url
    source_url := p.source_url
    ingest_source_type := p.ingest_source_type
    created_at := p.created_at
    enriched_at := r.enriched_at
    regulation_id := r.regulation_id }

/-- Modelled from the spec: insertion of a fresh row by the store's
upsert; the enrichment columns start out null. -/
def newRow (p : PayloadRow) : StoredRow :=
  { country := p.country
    authority := p.authority
    title := p.title
    doc_url := p.doc_url
    source_url := p.source_url
    ingest_source_type := p.ingest_source_type
    created_at := p.created_at
    enriched_at := none
    regulation_id := none }

/-- Modelled from the spec: the store's upsert of one payload row keyed
by `doc_url` — update the existing row with that key, else append. -/
def upsertRow (db : List StoredRow) (p : PayloadRow) : List StoredRow :=
  if db.any (fun r => r.doc_url == p.doc_url)
  then db.map (fun r => if r.doc_url = p.doc_url then applyPayload r p else r)
  else db ++ [newRow p]

/-- Embedding of `run_save.save_items` acting on a store state: build the payload rows
and upsert them (on conflict `doc_url`). -/
def save_items (db : List StoredRow) (items : List IngestItem) : List StoredRow :=
  (buildRows items).foldl upsertRow db

/-! ## `src/alerts.py` — `check_silent_sources`

```python
def check_silent_sources(supa, min_silence_hours_default, silence_overrides, country, max_rows=50000):
    rows = ...  # ingest_items: country, authority, source_url, created_at
    latest_by_source = OrderedDict()
    for r in rows:
        key = (r.get("country"), r.get("authority"), r.get("source_url"))
        if not key[0] or not key[1] or not key[2]:
            continue
        if key in latest_by_source:
            continue
        ts = r.get("created_at")
        if not ts:
            continue
        try:
            last_dt = datetime.fromisoformat(str(ts).replace("Z", "+00:00"))
        except Exception:
            continue
        latest_by_source[key] = last_dt
    now = utcnow()
    silent = []
    for (ctry, authority, src_url), last_dt in latest_by_source.items():
        thr = silence_overrides.get(authority, min_silence_hours_default)
        if last_dt < (now - timedelta(hours=thr)):
            silent.append({...})
    return silent
```
Timestamps are modelled as already-parsed integers (seconds): a row's
`created_at` is `some t` when the column is present, non-empty and
`datetime.fromisoformat` accepts it, `none` otherwise.  The rows arrive
in whatever order the store query returned them (the query orders by
authority, source_url, created_at DESC); the function itself only takes
the first occurrence per key, which is what is modelled. -/

/-- An `ingest_items` row as read by `check_silent_sources`. -/
structure SilentRow where
  country : Option String
  authority : Option String
  source_url : Option String
  created_at : Option Int
deriving DecidableEq, Repr

/-- Python falsiness of an optional string: `None` or `""`. -/
def falsyStr : Option String → Bool
  | none => true
  | some s => s == ""

/-- Test `key in latest_by_source` for the accumulator list. -/
def keyBound (acc : List ((String × String × String) × Int)) (k : String × String × String) : Bool :=
  acc.any (fun p => p.1 == k)

/-- The `for r in rows` loop building `latest_by_source` (an insertion-
ordered map, first valid occurrence per `(country, authority,
source_url)` key wins). -/
def latestGo (acc : List ((String × String × String) × Int)) :
    List SilentRow → List ((String × String × String) × Int)
  | [] => acc
  | r :: rest =>
    if falsyStr r.country || falsyStr r.authority || falsyStr r.source_url then
      latestGo acc rest
    else
      let k := (r.country.getD "", r.authority.getD "", r.source_url.getD "")
      if keyBound acc k then latestGo acc rest
      else
        match r.created_at with
        | none => latestGo acc rest
        | some ts => latestGo (acc ++ [(k, ts)]) rest

/-- Build `latest_by_source` as a whole. -/
def latestBySource (rows : List SilentRow) : List ((String × String × String) × Int) :=
  latestGo [] rows

/-- Model of `silence_overrides.get(authority, min_silence_hours_default)`. -/
def lookupOv (ov : List (String × Int)) (a : String) (dflt : Int) : Int :=
  match ov.find? (fun p => p.1 == a) with
  | some p => p.2
  | none => dflt

/-- One element of the `silent` result list.  The displayed
`hours_since` field (a rounded float, `round((now - last).total_seconds()
/ 3600, 1)`) is presentation-only and not modelled. -/
structure SilenceAlert where
  country : String
  authority : String
  source_url : String
  last_item_at : Int
  threshold_h : Int
deriving DecidableEq, Repr

/-- Embedding of `alerts.check_silent_sources` (its pure part, over the rows the store
query returned and the current time `now`). -/
def check_silent_sources (dflt : Int) (ov : List (String × Int)) (rows : List SilentRow)
    (now : Int) : List SilenceAlert :=
  (latestBySource rows).filterMap (fun p =>
    let thr := lookupOv ov p.1.2.1 dflt
    if p.2 < now - thr * 3600 then
      some { country := p.1.1, authority := p.1.2.1, source_url := p.1.2.2,
             last_item_at := p.2, threshold_h := thr }
    else none)

/-! ## `src/alerts.py` — the only-if-issues branch of `main`

```python
if args.only_if_issues and (len(silent) == 0 and len(failed) == 0):
    notes = "only-if-issues: no problems -> no email"
    print(notes)
    supa.table("runs_log").update(
        {"ok_count": 0, "fail_count": 0, "notes": notes, "finished_at": utcnow().isoformat()}
    ).eq("id", run_id).execute()
    return

send_mail(subject=subject, text=body, html=None, dry_run=args.dry_run)
supa.table("runs_log").update(
    {"ok_count": 1, "fail_count": 0, "notes": None, "finished_at": utcnow().isoformat()}
).eq("id", run_id).execute()
```
The outcome records whether mail was sent and the RunRecord update that
is written either way (`pending` is computed by `main` and shown in the
report body, but takes no part in the suppression decision; the
exception path that records `fail_count = 1` is outside this branch). -/

/-- Observable outcome of the dispatch decision in `alerts.main`. -/
structure HealthOutcome where
  email_sent : Bool
  notes : Option String
  ok_count : Nat
  fail_count : Nat
  finished_at_set : Bool
deriving DecidableEq, Repr

/-- The notification/RunRecord dispatch of `alerts.main`, given the
only-if-issues flag and the three computed counts. -/
def healthDispatch (onlyIfIssues : Bool) (pending : Nat) (failedCount : Nat) (silentCount : Nat) :
    HealthOutcome :=
  if onlyIfIssues && (silentCount == 0 && failedCount == 0) then
    { email_sent := false
      notes := some "only-if-issues: no problems -> no email"
      ok_count := 0
      fail_count := 0
      finished_at_set := true }
  else
    { email_sent := true
      notes := none
      ok_count := 1
      fail_count := 0
      finished_at_set := true }

/-! ## Helper lemmas -/

/-- Mapping a function that fixes every element of a list is the identity. -/
theorem map_eq_self_of_fixes {α : Type} (f : α → α) (l : List α) (h : ∀ a ∈ l, f a = a) :
    l.map f = l := by
  induction l with
  | nil => rfl
  | cons x xs ih =>
    simp only [List.map_cons, h x (List.mem_cons_self x xs)]
    rw [ih (fun a ha => h a (List.mem_cons_of_mem x ha))]

/-- Right whitespace-strip distributes over append when the left part is
already right-stripped. -/
theorem rstripWs_append (a b : List Char) (ha : rstripWs a = a) :
    rstripWs (a ++ b) = a ++ rstripWs b := by
  unfold rstripWs at ha ⊢
  rw [List.reverse_append, List.dropWhile_append]
  split_ifs with h
  · rw [List.isEmpty_iff] at h
    rw [h, List.reverse_nil, List.append_nil]
    exact ha
  · simp [List.reverse_append]

/-- Appending a trailing slash is invisible to a whitespace right-strip. -/
theorem rstripWs_snoc_slash (l : List Char) : rstripWs (l ++ ['/']) = l ++ ['/'] := by
  unfold rstripWs
  rw [List.reverse_append]
  simp [List.dropWhile, pyIsSpace]

/-- A trailing slash is absorbed by `rstrip("/")`. -/
theorem rstripSlash_snoc_slash (l : List Char) : rstripSlash (l ++ ['/']) = rstripSlash l := by
  unfold rstripSlash
  rw [List.reverse_append]
  simp [List.dropWhile]

/-- Appending a slash commutes with matching the `www.` prefix. -/
theorem dropCI_www_snoc_slash (t : List Char) :
    dropCI "www.".data (t ++ ['/']) = (dropCI "www.".data t).map (fun r => r ++ ['/']) := by
  rcases t with _ | ⟨a, _ | ⟨b, _ | ⟨c, _ | ⟨d, rest⟩⟩⟩⟩ <;>
    simp only [dropCI, List.cons_append, List.nil_append, Option.map_some, Option.map_none] <;>
    split_ifs <;>
    first
      | rfl
      | exact absurd ‹Char.toLower '/' = '.'› (by decide)

/-- Scheme matching on a literal `http://` prefix. -/
theorem schemeDrop_http (x : List Char) : schemeDrop ("http://".data ++ x) = some x := rfl

/-- Scheme matching on a literal `https://` prefix. -/
theorem schemeDrop_https (x : List Char) : schemeDrop ("https://".data ++ x) = some x := rfl

/-- Scheme matching on a literal `https://www.` prefix leaves the
`www.` for the second regex group. -/
theorem schemeDrop_https_www (x : List Char) :
    schemeDrop ("https://www.".data ++ x) = some ("www.".data ++ x) := rfl

/-- Matching `www.` against a literal `www.` prefix. -/
theorem dropCI_www_www (x : List Char) : dropCI "www.".data ("www.".data ++ x) = some x := rfl

/-- A list with a non-empty literal prefix is non-empty. -/
theorem lit_append_ne_nil (x t : List Char) (hx : x ≠ []) : x ++ t ≠ [] := by
  intro h
  exact hx (List.append_eq_nil.mp h).1

/-- Value of `pyStrip` on a string with a literal `http://` prefix. -/
theorem pyStrip_http (t : List Char) :
    pyStrip ("http://".data ++ t) = "http://".data ++ rstripWs t := by
  have h1 : lstripWs ("http://".data ++ t) = "http://".data ++ t := rfl
  unfold pyStrip
  rw [h1]
  exact rstripWs_append _ _ (by decide)

/-- Value of `pyStrip` on a string with a literal `https://` prefix. -/
theorem pyStrip_https (t : List Char) :
    pyStrip ("https://".data ++ t) = "https://".data ++ rstripWs t := by
  have h1 : lstripWs ("https://".data ++ t) = "https://".data ++ t := rfl
  unfold pyStrip
  rw [h1]
  exact rstripWs_append _ _ (by decide)

/-- Value of `pyStrip` on a string with a literal `https://www.` prefix. -/
theorem pyStrip_https_www (t : List Char) :
    pyStrip ("https://www.".data ++ t) = "https://www.".data ++ rstripWs t := by
  have h1 : lstripWs ("https://www.".data ++ t) = "https://www.".data ++ t := rfl
  unfold pyStrip
  rw [h1]
  exact rstripWs_append _ _ (by decide)

/-- Value of `wwwSub` after a literal `http://` prefix. -/
theorem wwwSub_http (x : List Char) :
    wwwSub ("http://".data ++ x) =
      match dropCI "www.".data x with
      | some r => "https://".data ++ r
      | none => "https://".data ++ x := rfl

/-- Value of `wwwSub` after a literal `https://` prefix. -/
theorem wwwSub_https (x : List Char) :
    wwwSub ("https://".data ++ x) =
      match dropCI "www.".data x with
      | some r => "https://".data ++ r
      | none => "https://".data ++ x := rfl

/-- Value of `wwwSub` after a literal `https://www.` prefix: exactly one
leading `www.` is removed. -/
theorem wwwSub_https_www (x : List Char) :
    wwwSub ("https://www.".data ++ x) = "https://".data ++ x := rfl

/-! ## C10 — `normalize_country` does not enforce the country enum -/

/-- C10: `normalize_country` returns the whitespace-stripped input
unchanged for every input that is non-empty after stripping — including
values outside `{UAE, KSA, Qatar}` — and returns the default `"UAE"`
exactly for `None`, empty, or whitespace-only input. -/
theorem claim_C10_normalize_country_passthrough (c : Option (List Char)) :
    (pyStrip (c.getD []) ≠ [] → normalize_country c = pyStrip (c.getD [])) ∧
    (pyStrip (c.getD []) = [] → normalize_country c = "UAE".data) := by
  constructor
  · intro h
    by_cases h1 : pyStrip (c.getD []) = "UAE".data ∨ pyStrip (c.getD []) = "KSA".data ∨
        pyStrip (c.getD []) = "Qatar".data
    · simp [normalize_country, h1]
    · simp [normalize_country, h1, h]
  · intro h
    simp [normalize_country, h]

/-- C10 witness: the out-of-enum value `" France "` strips to a non-empty
string and passes through unchanged. -/
theorem claim_C10_witness :
    pyStrip (" France ".data) ≠ [] ∧ normalize_country (some " France ".data) = "France".data :=
  ⟨by decide, (claim_C10_normalize_country_passthrough (some " France ".data)).1 (by decide)⟩

/-! ## C9 — notification suppression in `alerts.main` -/

/-- C9: with the only-if-issues flag set and both the failed-run count and
the silent-source count zero, no mail is sent, yet the RunRecord is still
finished with the "no problems" note; the pending-enrichment count plays
no part in the decision. -/
theorem claim_C9_suppression (pending pending2 : Nat) :
    healthDispatch true pending 0 0 =
      { email_sent := false
        notes := some "only-if-issues: no problems -> no email"
        ok_count := 0
        fail_count := 0
        finished_at_set := true } ∧
    (∀ onlyIfIssues failedCount silentCount,
      healthDispatch onlyIfIssues pending failedCount silentCount =
        healthDispatch onlyIfIssues pending2 failedCount silentCount) :=
  ⟨rfl, fun _ _ _ => rfl⟩

/-! ## C1 — URL canonicalization equivalence -/

/-- C1 counterexample: `normalize_url` performs no scheme defaulting and
no case folding, so `"EXAMPLE.com/a/"` (with or without a scheme
prepended) does not canonicalize to the key of
`"http://www.example.com/a/"`, and two scheme-less URLs differing only in
a leading `www.` get different keys. -/
theorem claim_C1_counterexample :
    normalize_url "EXAMPLE.com/a/".data ≠ normalize_url "http://www.example.com/a/".data ∧
    normalize_url "https://EXAMPLE.com/a/".data ≠ normalize_url "http://www.example.com/a/".data ∧
    normalize_url "www.example.com/a".data ≠ normalize_url "example.com/a".data := by
  refine ⟨by decide, by decide, by decide⟩

/-- C1 (amended): for raw URLs carrying an explicit `http://`/`https://`
scheme, `normalize_url` maps pairs differing only in scheme, in the
presence of a single leading `www.` after the scheme, or in a trailing
slash, to the identical key; in particular the two scheme-bearing
examples `http://www.example.com/a/` and `https://example.com/a`
canonicalize to the same key (scheme-less inputs such as
`EXAMPLE.com/a/` are not canonicalized). -/
theorem claim_C1_amended (t : List Char) :
    normalize_url ("http://".data ++ t) = normalize_url ("https://".data ++ t) ∧
    (dropCI "www.".data (rstripWs t) = none →
      normalize_url ("https://www.".data ++ t) = normalize_url ("https://".data ++ t)) ∧
    (rstripWs t = t →
      normalize_url ("https://".data ++ (t ++ ['/'])) = normalize_url ("https://".data ++ t)) ∧
    normalize_url "http://www.example.com/a/".data = normalize_url "https://example.com/a".data := by
  refine ⟨?_, ?_, ?_, by decide⟩
  · unfold normalize_url
    rw [if_neg (lit_append_ne_nil _ _ (by decide)), if_neg (lit_append_ne_nil _ _ (by decide)),
      pyStrip_http, pyStrip_https, wwwSub_http (rstripWs t), wwwSub_https (rstripWs t)]
  · intro hw
    unfold normalize_url
    rw [if_neg (lit_append_ne_nil _ _ (by decide)), if_neg (lit_append_ne_nil _ _ (by decide)),
      pyStrip_https_www, pyStrip_https, wwwSub_https_www (rstripWs t),
      wwwSub_https (rstripWs t), hw]
  · intro ht
    have h1 : pyStrip ("https://".data ++ (t ++ ['/'])) = "https://".data ++ (t ++ ['/']) := by
      rw [pyStrip_https, rstripWs_snoc_slash]
    unfold normalize_url
    rw [if_neg (lit_append_ne_nil _ _ (by decide)), if_neg (lit_append_ne_nil _ _ (by decide)),
      h1, pyStrip_https, ht, wwwSub_https (t ++ ['/']), wwwSub_https t]
    cases hwt : dropCI "www.".data t with
    | none =>
      have h2 : dropCI "www.".data (t ++ ['/']) = none := by
        rw [dropCI_www_snoc_slash, hwt]
        rfl
      rw [h2]
      show rstripSlash ("https://".data ++ (t ++ ['/'])) = rstripSlash ("https://".data ++ t)
      rw [← List.append_assoc, rstripSlash_snoc_slash]
    | some r =>
      have h2 : dropCI "www.".data (t ++ ['/']) = some (r ++ ['/']) := by
        rw [dropCI_www_snoc_slash, hwt]
        rfl
      rw [h2]
      show rstripSlash ("https://".data ++ (r ++ ['/'])) = rstripSlash ("https://".data ++ r)
      rw [← List.append_assoc, rstripSlash_snoc_slash]

/-- C1 witness: the amended equivalences applied at the concrete suffix
`example.com/a`. -/
theorem claim_C1_witness :
    (dropCI "www.".data (rstripWs "example.com/a".data) = none ∧
      rstripWs "example.com/a".data = "example.com/a".data) ∧
    normalize_url ("https://www.".data ++ "example.com/a".data) =
      normalize_url ("https://".data ++ "example.com/a".data) ∧
    normalize_url ("https://".data ++ ("example.com/a".data ++ ['/'])) =
      normalize_url ("https://".data ++ "example.com/a".data) :=
  ⟨⟨by decide, by decide⟩,
    (claim_C1_amended "example.com/a".data).2.1 (by decide),
    (claim_C1_amended "example.com/a".data).2.2.1 (by decide)⟩

/-! ## C3/C4 — helper lemmas on `candidate_urls` -/

/-- Elements emitted by `dedupGo` were not in the seen-set. -/
theorem dedupGo_not_seen (l : List (List Char)) :
    ∀ (seen : List (List Char)) (x : List Char), x ∈ dedupGo seen l → seen.contains x = false := by
  induction l with
  | nil =>
    intro seen x hx
    simp [dedupGo] at hx
  | cons a t ih =>
    intro seen x hx
    unfold dedupGo at hx
    by_cases hc : seen.contains a = true
    · rw [if_pos hc] at hx
      exact ih seen x hx
    · rw [if_neg hc] at hx
      rcases List.mem_cons.mp hx with h | h
      · subst h
        exact Bool.not_eq_true _ ▸ eq_false_of_ne_true hc
      · have h2 := ih (a :: seen) x h
        simp only [List.contains_cons, Bool.or_eq_false_iff] at h2
        exact h2.2

/-- The output of `dedupGo` contains no duplicates. -/
theorem dedupGo_nodup (l : List (List Char)) :
    ∀ seen : List (List Char), (dedupGo seen l).Nodup := by
  induction l with
  | nil =>
    intro seen
    simp [dedupGo]
  | cons a t ih =>
    intro seen
    unfold dedupGo
    by_cases hc : seen.contains a = true
    · rw [if_pos hc]
      exact ih seen
    · rw [if_neg hc]
      refine List.nodup_cons.mpr ⟨?_, ih (a :: seen)⟩
      intro hmem
      have h2 := dedupGo_not_seen t (a :: seen) a hmem
      simp [List.contains_cons] at h2

/-- The output of `dedupL` contains no duplicates. -/
theorem dedupL_nodup (l : List (List Char)) : (dedupL l).Nodup := dedupGo_nodup l []

/-- A bracket-free netloc passes the IPv6 validity check. -/
theorem invalidIpv6_of_no_brackets (nl : List Char)
    (h : nl.all (fun c => !(c == '[' || c == ']')) = true) : invalidIpv6 nl = false := by
  have h1 : nl.contains '[' = false := by
    cases hc : nl.contains '[' with
    | false => rfl
    | true =>
      have hm : '[' ∈ nl := List.mem_of_elem_eq_true hc
      have := List.all_eq_true.mp h '[' hm
      simp at this
  have h2 : nl.contains ']' = false := by
    cases hc : nl.contains ']' with
    | false => rfl
    | true =>
      have hm : ']' ∈ nl := List.mem_of_elem_eq_true hc
      have := List.all_eq_true.mp h ']' hm
      simp at this
  unfold invalidIpv6
  rw [h1, h2]
  rfl

/-- With a bracket-free netloc, the modelled `urlparse` succeeds. -/
theorem urlparseNP_ok_of_clean (url : List Char)
    (h : (parsedNetloc url).all (fun c => !(c == '[' || c == ']')) = true) :
    ∃ pr, urlparseNP url = .ok pr := by
  simp only [urlparseNP]
  cases hs : schemeDrop (stripUnsafe url) with
  | none => exact ⟨_, rfl⟩
  | some rest =>
    have hnet : parsedNetloc url = rest.takeWhile (fun c => !isNetlocEnd c) := by
      unfold parsedNetloc
      rw [hs]
    have hinv : invalidIpv6 (rest.takeWhile (fun c => !isNetlocEnd c)) = false :=
      hnet ▸ invalidIpv6_of_no_brackets _ (hnet ▸ h)
    refine ⟨(rest.takeWhile (fun c => !isNetlocEnd c),
      (rest.dropWhile (fun c => !isNetlocEnd c)).takeWhile (fun c => !(c == '?' || c == '#'))), ?_⟩
    show urlparseTail rest = _
    simp only [urlparseTail]
    rw [hinv]
    rfl

/-! ## C4 — `candidate_urls` never throws, empty input gives empty output -/

/-- C4 counterexample: on input `"["` — a malformed string — the
`urlparse` call inside `candidate_urls` raises
`ValueError("Invalid IPv6 URL")` (the prepared URL `https://[` has the
netloc `[`, a bracket without its mate), so `candidate_urls` does throw
on malformed input. -/
theorem claim_C4_counterexample :
    candidate_urls "[".data = .error "Invalid IPv6 URL".data := rfl

/-- C4 (amended): `candidate_urls ""` returns the empty candidate list,
and `candidate_urls` terminates without an exception on every input
whose parsed netloc contains no square bracket; inputs whose netloc has
bracket trouble (for example `"["`) raise `urlparse`'s `ValueError`
instead. -/
theorem claim_C4_amended :
    candidate_urls [] = .ok [] ∧
    ∀ u : List Char,
      (parsedNetloc (cuPrep u)).all (fun c => !(c == '[' || c == ']')) = true →
      ∃ l, candidate_urls u = .ok l := by
  refine ⟨rfl, ?_⟩
  intro u h
  by_cases hu : u = []
  · subst hu
    exact ⟨[], rfl⟩
  · obtain ⟨pr, hpr⟩ := urlparseNP_ok_of_clean (cuPrep u) h
    obtain ⟨netloc, rawPath⟩ := pr
    refine ⟨candidateVariants netloc rawPath, ?_⟩
    simp only [candidate_urls]
    rw [if_neg hu, hpr]

/-- C4 witness: the amended no-throw statement applied at the concrete
input `example.com`, whose netloc is bracket-free. -/
theorem claim_C4_witness :
    (parsedNetloc (cuPrep "example.com".data)).all (fun c => !(c == '[' || c == ']')) = true ∧
    ∃ l, candidate_urls "example.com".data = .ok l :=
  ⟨by decide, claim_C4_amended.2 "example.com".data (by decide)⟩

/-! ## C3 — `candidate_urls` is deterministic and de-duplicated -/

/-- C3: the candidate generator is a pure function — for a fixed input
the returned candidate list is the same sequence on every call (there is
no randomness in the embedding; CPython's set-iteration order, modelled
here as insertion order, is likewise fixed within an interpreter
process) — and any returned list is de-duplicated. -/
theorem claim_C3_candidate_urls_deterministic (u : List Char) :
    candidate_urls u = candidate_urls u ∧
    ∀ l, candidate_urls u = .ok l → l.Nodup := by
  refine ⟨rfl, ?_⟩
  intro l hl
  by_cases hu : u = []
  · subst hu
    have h2 : ([] : List (List Char)) = l := Except.ok.inj hl
    subst h2
    exact List.nodup_nil
  · simp only [candidate_urls, if_neg hu] at hl
    cases hp : urlparseNP (cuPrep u) with
    | error e =>
      rw [hp] at hl
      exact Except.noConfusion hl
    | ok pr =>
      obtain ⟨netloc, rawPath⟩ := pr
      rw [hp] at hl
      have h2 := Except.ok.inj hl
      rw [← h2]
      simp only [candidateVariants]
      exact dedupL_nodup _

/-- C3 witness: the deterministic output at `example.com`, with its
de-duplication property. -/
theorem claim_C3_witness :
    candidate_urls "example.com".data =
      .ok ["https://example.com/".data, "https://www.example.com/".data] ∧
    List.Nodup ["https://example.com/".data, "https://www.example.com/".data] :=
  ⟨rfl, (claim_C3_candidate_urls_deterministic "example.com".data).2 _ rfl⟩

/-! ## C6–C8 — helper lemmas on `check_silent_sources` -/

/-- A non-falsy optional string is `some` of its extracted value. -/
theorem falsyStr_false_some (o : Option String) (h : falsyStr o = false) :
    o = some (o.getD "") := by
  cases o with
  | none => simp [falsyStr] at h
  | some s => rfl

/-- An optional string holding a non-empty value is not falsy. -/
theorem falsyStr_some_of_ne (s : String) (h : s ≠ "") : falsyStr (some s) = false := by
  simp only [falsyStr]
  exact beq_eq_false_iff_ne.mpr h

/-- Every binding produced by `latestGo` comes from the accumulator or
from an input row carrying exactly those (non-null) fields and that
(parsed) timestamp. -/
theorem latestGo_provenance (rows : List SilentRow) :
    ∀ (acc : List ((String × String × String) × Int)) (k : String × String × String) (t : Int),
      (k, t) ∈ latestGo acc rows →
      (k, t) ∈ acc ∨
        ∃ r ∈ rows, r.country = some k.1 ∧ r.authority = some k.2.1 ∧
          r.source_url = some k.2.2 ∧ r.created_at = some t := by
  induction rows with
  | nil =>
    intro acc k t h
    exact Or.inl h
  | cons r rest ih =>
    intro acc k t h
    simp only [latestGo] at h
    by_cases h1 : (falsyStr r.country || falsyStr r.authority || falsyStr r.source_url) = true
    · rw [if_pos h1] at h
      rcases ih acc k t h with ha | ⟨r2, hr2, hf⟩
      · exact Or.inl ha
      · exact Or.inr ⟨r2, List.mem_cons_of_mem _ hr2, hf⟩
    · rw [if_neg h1] at h
      have h1f := eq_false_of_ne_true h1
      rw [Bool.or_eq_false_iff, Bool.or_eq_false_iff] at h1f
      obtain ⟨⟨hfc, hfa⟩, hfs⟩ := h1f
      by_cases h2 :
          keyBound acc (r.country.getD "", r.authority.getD "", r.source_url.getD "") = true
      · rw [if_pos h2] at h
        rcases ih acc k t h with ha | ⟨r2, hr2, hf⟩
        · exact Or.inl ha
        · exact Or.inr ⟨r2, List.mem_cons_of_mem _ hr2, hf⟩
      · rw [if_neg h2] at h
        cases hc : r.created_at with
        | none =>
          rw [hc] at h
          rcases ih acc k t h with ha | ⟨r2, hr2, hf⟩
          · exact Or.inl ha
          · exact Or.inr ⟨r2, List.mem_cons_of_mem _ hr2, hf⟩
        | some ts =>
          rw [hc] at h
          rcases ih _ k t h with ha | ⟨r2, hr2, hf⟩
          · rcases List.mem_append.mp ha with haa | hnew
            · exact Or.inl haa
            · have hkt := List.mem_singleton.mp hnew
              have hk := (Prod.mk.injEq _ _ _ _).mp hkt
              refine Or.inr ⟨r, List.mem_cons_self _ _, ?_, ?_, ?_, ?_⟩
              · rw [falsyStr_false_some r.country hfc, hk.1]
              · rw [falsyStr_false_some r.authority hfa, hk.1]
              · rw [falsyStr_false_some r.source_url hfs, hk.1]
              · rw [hc, hk.2]
          · exact Or.inr ⟨r2, List.mem_cons_of_mem _ hr2, hf⟩

/-- Value of the per-group filter in `check_silent_sources` when the
threshold is exceeded. -/
theorem lookupOv_nil (a : String) (dflt : Int) : lookupOv [] a dflt = dflt := rfl

/-! ## C6 — staleness threshold boundary -/

/-- C6: with the default 72-hour threshold and no overrides, a grouped
source with latest item timestamp `t` is flagged exactly when `now - t`
strictly exceeds 72 hours; in particular a single-source input whose last
item sits at `now - 72h - 1s` IS flagged and one at `now - 72h + 1s` is
NOT. -/
theorem claim_C6_staleness_boundary :
    (∀ (rows : List SilentRow) (now : Int) (c a s : String) (t : Int),
      ((c, a, s), t) ∈ latestBySource rows →
      (({ country := c, authority := a, source_url := s, last_item_at := t,
          threshold_h := 72 } : SilenceAlert) ∈ check_silent_sources 72 [] rows now ↔
        now - t > 72 * 3600)) ∧
    (∀ (now : Int) (c a s : String), c ≠ "" → a ≠ "" → s ≠ "" →
      check_silent_sources 72 [] [⟨some c, some a, some s, some (now - 72 * 3600 - 1)⟩] now =
        [{ country := c, authority := a, source_url := s,
           last_item_at := now - 72 * 3600 - 1, threshold_h := 72 }] ∧
      check_silent_sources 72 [] [⟨some c, some a, some s, some (now - 72 * 3600 + 1)⟩] now
        = []) := by
  have key : ∀ (now : Int) (c a s : String) (t : Int), c ≠ "" → a ≠ "" → s ≠ "" →
      latestBySource [⟨some c, some a, some s, some t⟩] = [((c, a, s), t)] := by
    intro now c a s t hc ha hs
    simp [latestBySource, latestGo, falsyStr_some_of_ne _ hc, falsyStr_some_of_ne _ ha,
      falsyStr_some_of_ne _ hs, keyBound]
  constructor
  · intro rows now c a s t hmem
    constructor
    · intro hal
      obtain ⟨p, hp, hf⟩ := List.mem_filterMap.mp hal
      dsimp only at hf
      by_cases hcond : p.2 < now - lookupOv [] p.1.2.1 72 * 3600
      · rw [if_pos hcond] at hf
        have h2 := Option.some.inj hf
        have ht : p.2 = t := congrArg SilenceAlert.last_item_at h2
        rw [lookupOv_nil, ht] at hcond
        omega
      · rw [if_neg hcond] at hf
        cases hf
    · intro hgt
      apply List.mem_filterMap.mpr
      refine ⟨((c, a, s), t), hmem, ?_⟩
      dsimp only
      have hcond : t < now - lookupOv [] a 72 * 3600 := by
        rw [lookupOv_nil]
        omega
      rw [if_pos hcond]
      rfl
  · intro now c a s hc ha hs
    constructor
    · unfold check_silent_sources
      rw [key now c a s _ hc ha hs]
      have hcond : now - 72 * 3600 - 1 < now - lookupOv [] a 72 * 3600 := by
        rw [lookupOv_nil]
        omega
      simp only [List.filterMap_cons, List.filterMap_nil]
      rw [if_pos hcond]
      rfl
    · unfold check_silent_sources
      rw [key now c a s _ hc ha hs]
      have hcond : ¬(now - 72 * 3600 + 1 < now - lookupOv [] a 72 * 3600) := by
        rw [lookupOv_nil]
        omega
      simp only [List.filterMap_cons, List.filterMap_nil]
      rw [if_neg hcond]

/-- C6 witness: concrete boundary instances at `now = 10^9` seconds. -/
theorem claim_C6_witness :
    ("Qatar" ≠ "" ∧ "PSA" ≠ "" ∧ "https://u" ≠ "") ∧
    check_silent_sources 72 []
        [⟨some "Qatar", some "PSA", some "https://u", some (1000000000 - 72 * 3600 - 1)⟩]
        1000000000 =
      [{ country := "Qatar", authority := "PSA", source_url := "https://u",
         last_item_at := 1000000000 - 72 * 3600 - 1, threshold_h := 72 }] :=
  ⟨⟨by decide, by decide, by decide⟩,
    ((claim_C6_staleness_boundary.2 1000000000 "Qatar" "PSA" "https://u"
      (by decide) (by decide) (by decide)).1)⟩

/-! ## C7 — per-authority override precedence -/

/-- C7: with the override table mapping authority `PSA` to 48 hours and a
global default of 72 hours, a PSA group whose last item is 50 hours old
IS flagged (with threshold 48), while a non-PSA group (no override) of
the same age is NOT flagged — the output holds exactly the PSA alert. -/
theorem claim_C7_override_precedence (now : Int) (c s c2 a2 s2 : String)
    (hc : c ≠ "") (hs : s ≠ "") (hc2 : c2 ≠ "") (ha2 : a2 ≠ "") (hs2 : s2 ≠ "")
    (hna : a2 ≠ "PSA") :
    check_silent_sources 72 [("PSA", 48)]
      [⟨some c, some "PSA", some s, some (now - 50 * 3600)⟩,
       ⟨some c2, some a2, some s2, some (now - 50 * 3600)⟩] now =
      [{ country := c, authority := "PSA", source_url := s,
         last_item_at := now - 50 * 3600, threshold_h := 48 }] := by
  have hbeq : (("PSA" : String) == a2) = false := beq_eq_false_iff_ne.mpr (Ne.symm hna)
  have hkb : (((c, "PSA", s) : String × String × String) == (c2, a2, s2)) = false :=
    beq_eq_false_iff_ne.mpr (fun h => hna (congrArg (fun p => p.2.1) h).symm)
  have hlat :
      latestBySource
        [⟨some c, some "PSA", some s, some (now - 50 * 3600)⟩,
         ⟨some c2, some a2, some s2, some (now - 50 * 3600)⟩] =
      [((c, "PSA", s), now - 50 * 3600), ((c2, a2, s2), now - 50 * 3600)] := by
    simp only [latestBySource, latestGo, falsyStr_some_of_ne _ hc,
      falsyStr_some_of_ne _ (by decide : ("PSA" : String) ≠ ""), falsyStr_some_of_ne _ hs,
      falsyStr_some_of_ne _ hc2, falsyStr_some_of_ne _ ha2, falsyStr_some_of_ne _ hs2,
      Bool.or_self, Bool.or_false, Bool.false_eq_true, if_false, keyBound, List.any_nil,
      List.any_cons, List.nil_append, Option.getD_some, hkb]
    rfl
  have hthrPSA : lookupOv [("PSA", 48)] "PSA" 72 = 48 := rfl
  have hthr2 : lookupOv [("PSA", 48)] a2 72 = 72 := by
    simp only [lookupOv, List.find?, hbeq]
  unfold check_silent_sources
  rw [hlat]
  simp only [List.filterMap_cons, List.filterMap_nil]
  rw [hthrPSA, hthr2, if_pos (by omega : now - 50 * 3600 < now - 48 * 3600),
    if_neg (by omega : ¬(now - 50 * 3600 < now - 72 * 3600))]

/-- C7 witness: the override precedence at concrete values. -/
theorem claim_C7_witness :
    ("Qatar" ≠ "" ∧ "u1" ≠ "" ∧ "Qatar" ≠ "" ∧ "ODP" ≠ "" ∧ "u2" ≠ "" ∧ "ODP" ≠ "PSA") ∧
    check_silent_sources 72 [("PSA", 48)]
      [⟨some "Qatar", some "PSA", some "u1", some (1000000000 - 50 * 3600)⟩,
       ⟨some "Qatar", some "ODP", some "u2", some (1000000000 - 50 * 3600)⟩] 1000000000 =
      [{ country := "Qatar", authority := "PSA", source_url := "u1",
         last_item_at := 1000000000 - 50 * 3600, threshold_h := 48 }] :=
  ⟨⟨by decide, by decide, by decide, by decide, by decide, by decide⟩,
    claim_C7_override_precedence 1000000000 "Qatar" "u1" "Qatar" "ODP" "u2"
      (by decide) (by decide) (by decide) (by decide) (by decide) (by decide)⟩

/-! ## C8 — no alerts for never-seen sources -/

/-- C8: every alert emitted by the staleness detector carries a
`(country, authority, source_url)` key that appears in at least one input
row with exactly that key and a parseable `created_at` timestamp; hence a
source with zero ever-ingested rows can never be reported. -/
theorem claim_C8_alerts_have_provenance (dflt : Int) (ov : List (String × Int))
    (rows : List SilentRow) (now : Int) (al : SilenceAlert)
    (h : al ∈ check_silent_sources dflt ov rows now) :
    ∃ r ∈ rows, r.country = some al.country ∧ r.authority = some al.authority ∧
      r.source_url = some al.source_url ∧ r.created_at = some al.last_item_at := by
  obtain ⟨p, hp, hf⟩ := List.mem_filterMap.mp h
  obtain ⟨⟨c, a, s⟩, t⟩ := p
  dsimp only at hf
  by_cases hcond : t < now - lookupOv ov a dflt * 3600
  · rw [if_pos hcond] at hf
    have h2 := Option.some.inj hf
    rcases latestGo_provenance rows [] (c, a, s) t hp with ha | ⟨r, hrm, h1, h2', h3, h4⟩
    · cases ha
    · refine ⟨r, hrm, ?_, ?_, ?_, ?_⟩
      · rw [h1, ← h2]
      · rw [h2', ← h2]
      · rw [h3, ← h2]
      · rw [h4, ← h2]
  · rw [if_neg hcond] at hf
    cases hf

/-- C8 witness: a concrete silent source, with its provenance row. -/
theorem claim_C8_witness :
    ({ country := "Qatar", authority := "PSA", source_url := "u",
       last_item_at := 0, threshold_h := 72 } : SilenceAlert) ∈
      check_silent_sources 72 [] [⟨some "Qatar", some "PSA", some "u", some 0⟩] 1000000000 ∧
    ∃ r ∈ [(⟨some "Qatar", some "PSA", some "u", some 0⟩ : SilentRow)],
      r.country = some "Qatar" ∧ r.authority = some "PSA" ∧
      r.source_url = some "u" ∧ r.created_at = some 0 :=
  ⟨by decide,
    claim_C8_alerts_have_provenance 72 [] [⟨some "Qatar", some "PSA", some "u", some 0⟩]
      1000000000
      { country := "Qatar", authority := "PSA", source_url := "u",
        last_item_at := 0, threshold_h := 72 } (by decide)⟩

/-! ## C2 — helper lemmas on the store upsert -/

/-- Re-applying the same payload to an already-updated row changes
nothing (the payload columns are overwritten with the same values, the
enrichment columns pass through). -/
theorem applyPayload_idem (r : StoredRow) (p : PayloadRow) :
    applyPayload (applyPayload r p) p = applyPayload r p := rfl

/-- Among rows whose `doc_url` column is duplicate-free, at most one row
matches a given key. -/
theorem countP_key_le_one (db : List StoredRow) (key : String)
    (hnd : (db.map (fun r => r.doc_url)).Nodup) :
    db.countP (fun r => r.doc_url == key) ≤ 1 := by
  induction db with
  | nil => simp
  | cons r t ih =>
    rw [List.map_cons, List.nodup_cons] at hnd
    rw [List.countP_cons]
    by_cases hq : (r.doc_url == key) = true
    · have hk : r.doc_url = key := eq_of_beq hq
      have h0 : t.countP (fun r2 => r2.doc_url == key) = 0 := by
        rw [List.countP_eq_zero]
        intro r2 hr2 hq2
        exact hnd.1 (hk ▸ eq_of_beq hq2 ▸ List.mem_map_of_mem (fun x => x.doc_url) hr2)
      rw [h0, if_pos hq]
    · rw [if_neg hq]
      have := ih hnd.2
      omega

/-- A matching row makes the matching count positive. -/
theorem countP_key_pos (db : List StoredRow) (key : String)
    (hany : (db.any fun r => r.doc_url == key) = true) :
    1 ≤ db.countP (fun r => r.doc_url == key) := by
  obtain ⟨r, hr, hq⟩ := List.any_eq_true.mp hany
  exact List.countP_pos_iff.mpr ⟨r, hr, hq⟩

/-- After an upsert, exactly one stored row carries the payload's
`doc_url` (given the store's uniqueness invariant on that column). -/
theorem upsertRow_countP (db : List StoredRow) (p : PayloadRow)
    (hnd : (db.map (fun r => r.doc_url)).Nodup) :
    (upsertRow db p).countP (fun r => r.doc_url == p.doc_url) = 1 := by
  unfold upsertRow
  by_cases hany : (db.any fun r => r.doc_url == p.doc_url) = true
  · rw [if_pos hany]
    have hmap :
        ((db.map (fun r => if r.doc_url = p.doc_url then applyPayload r p else r)).countP
          (fun r => r.doc_url == p.doc_url)) =
        db.countP (fun r => r.doc_url == p.doc_url) := by
      rw [List.countP_map]
      apply List.countP_congr
      intro r _
      by_cases hq : r.doc_url = p.doc_url
      · simp [Function.comp, hq, applyPayload]
      · simp [Function.comp, hq]
    rw [hmap]
    have hle := countP_key_le_one db p.doc_url hnd
    have hge := countP_key_pos db p.doc_url hany
    omega
  · rw [if_neg hany]
    rw [List.countP_append]
    have h0 : db.countP (fun r => r.doc_url == p.doc_url) = 0 := by
      rw [List.countP_eq_zero]
      exact List.any_eq_false.mp (eq_false_of_ne_true hany)
    rw [h0]
    simp [newRow]

/-- After an upsert, some stored row carries the payload's `doc_url`. -/
theorem upsertRow_any_key (db : List StoredRow) (p : PayloadRow) :
    ((upsertRow db p).any fun r => r.doc_url == p.doc_url) = true := by
  unfold upsertRow
  by_cases hany : (db.any fun r => r.doc_url == p.doc_url) = true
  · rw [if_pos hany]
    obtain ⟨r, hr, hq⟩ := List.any_eq_true.mp hany
    apply List.any_eq_true.mpr
    refine ⟨(if r.doc_url = p.doc_url then applyPayload r p else r),
      List.mem_map_of_mem _ hr, ?_⟩
    rw [if_pos (eq_of_beq hq)]
    simp [applyPayload]
  · rw [if_neg hany]
    apply List.any_eq_true.mpr
    exact ⟨newRow p, List.mem_append_right _ (List.mem_singleton_self _), by simp [newRow]⟩

/-- Every row produced by an upsert of `p` is fixed by re-applying `p`
when it carries `p`'s key. -/
theorem upsertRow_fixes (db : List StoredRow) (p : PayloadRow) :
    ∀ r ∈ upsertRow db p, r.doc_url = p.doc_url → applyPayload r p = r := by
  unfold upsertRow
  by_cases hany : (db.any fun r => r.doc_url == p.doc_url) = true
  · rw [if_pos hany]
    intro r hr hq
    obtain ⟨r0, hr0, hfr⟩ := List.mem_map.mp hr
    by_cases hq0 : r0.doc_url = p.doc_url
    · rw [if_pos hq0] at hfr
      rw [← hfr]
      exact applyPayload_idem r0 p
    · rw [if_neg hq0] at hfr
      rw [← hfr] at hq
      exact absurd hq hq0
  · rw [if_neg hany]
    intro r hr hq
    rcases List.mem_append.mp hr with hdb | hnew
    · have := List.any_eq_false.mp (eq_false_of_ne_true hany) r hdb
      rw [hq] at this
      simp at this
    · rw [List.mem_singleton.mp hnew]
      rfl

/-- Upserting with a payload whose key already resolves to fixed rows is
the identity. -/
theorem upsertRow_eq_self (db2 : List StoredRow) (p : PayloadRow)
    (hany : (db2.any fun r => r.doc_url == p.doc_url) = true)
    (hfix : ∀ r ∈ db2, r.doc_url = p.doc_url → applyPayload r p = r) :
    upsertRow db2 p = db2 := by
  unfold upsertRow
  rw [if_pos hany]
  apply map_eq_self_of_fixes
  intro r hr
  by_cases hq : r.doc_url = p.doc_url
  · rw [if_pos hq]
    exact hfix r hr hq
  · rw [if_neg hq]

/-- The second upsert of the same payload is a no-op. -/
theorem upsertRow_idem (db : List StoredRow) (p : PayloadRow) :
    upsertRow (upsertRow db p) p = upsertRow db p :=
  upsertRow_eq_self (upsertRow db p) p (upsertRow_any_key db p) (upsertRow_fixes db p)

/-- An upsert never clobbers the enrichment columns of the row it
updates: the updated row keeps `enriched_at`/`regulation_id`. -/
theorem upsertRow_keeps_enrichment (db : List StoredRow) (p : PayloadRow) (r : StoredRow)
    (hr : r ∈ db) (hq : r.doc_url = p.doc_url) :
    ∃ r2 ∈ upsertRow db p, r2.doc_url = p.doc_url ∧ r2.enriched_at = r.enriched_at ∧
      r2.regulation_id = r.regulation_id := by
  have hany : (db.any fun x => x.doc_url == p.doc_url) = true :=
    List.any_eq_true.mpr ⟨r, hr, by rw [hq]; simp⟩
  unfold upsertRow
  rw [if_pos hany]
  refine ⟨(if r.doc_url = p.doc_url then applyPayload r p else r),
    List.mem_map_of_mem _ hr, ?_⟩
  rw [if_pos hq]
  exact ⟨rfl, rfl, rfl⟩

/-- Value of `rowOf` when the normalized `doc_url` is non-empty. -/
theorem rowOf_of_doc_ne (it : IngestItem)
    (hdoc : normalize_url (pyOr it.doc_url "").data ≠ []) :
    rowOf it = some (payloadOf it) := by
  unfold rowOf payloadOf
  rw [if_neg hdoc]

/-- Saving a single item whose row survives filtering is one upsert. -/
theorem save_items_single (db : List StoredRow) (it : IngestItem) (p : PayloadRow)
    (h : rowOf it = some p) : save_items db [it] = upsertRow db p := by
  unfold save_items buildRows
  simp [List.filterMap_cons, h]

/-! ## C2 — idempotent upsert keyed by canonical `doc_url` -/

/-- C2: for every store state respecting the unique-`doc_url` invariant
and every item with a usable (non-empty after canonicalization)
`doc_url`, writing the item twice in sequence leaves exactly one stored
row under its canonical key; the second write is a no-op (it rewrites the
mutable payload columns with the same values and creates no duplicate
row), and the write never resets `enriched_at`/`regulation_id` already
set on the existing row. -/
theorem claim_C2_idempotent_upsert (db : List StoredRow) (it : IngestItem)
    (hnd : (db.map (fun r => r.doc_url)).Nodup)
    (hdoc : normalize_url (pyOr it.doc_url "").data ≠ []) :
    (save_items (save_items db [it]) [it]).countP
        (fun r => r.doc_url == String.mk (normalize_url (pyOr it.doc_url "").data)) = 1 ∧
    save_items (save_items db [it]) [it] = save_items db [it] ∧
    ∀ r ∈ db, r.doc_url = String.mk (normalize_url (pyOr it.doc_url "").data) →
      ∃ r2 ∈ save_items db [it],
        r2.doc_url = r.doc_url ∧ r2.enriched_at = r.enriched_at ∧
        r2.regulation_id = r.regulation_id := by
  have hp := rowOf_of_doc_ne it hdoc
  have hkeyeq : (payloadOf it).doc_url = String.mk (normalize_url (pyOr it.doc_url "").data) :=
    rfl
  have hsv : save_items db [it] = upsertRow db (payloadOf it) :=
    save_items_single db it (payloadOf it) hp
  have hsv2 : save_items (save_items db [it]) [it] =
      upsertRow (save_items db [it]) (payloadOf it) :=
    save_items_single _ it (payloadOf it) hp
  refine ⟨?_, ?_, ?_⟩
  · rw [hsv2, hsv, upsertRow_idem, ← hkeyeq]
    exact upsertRow_countP db (payloadOf it) hnd
  · rw [hsv2, hsv]
    exact upsertRow_idem db (payloadOf it)
  · intro r hr hkey
    rw [hsv]
    rw [← hkeyeq] at hkey
    obtain ⟨r2, hm, hd, he, hreg⟩ := upsertRow_keeps_enrichment db (payloadOf it) r hr hkey
    exact ⟨r2, hm, by rw [hd, hkey], he, hreg⟩

/-- C2 witness: a double write of one concrete item into the empty store
leaves exactly one row. -/
theorem claim_C2_witness :
    ((([] : List StoredRow).map (fun r => r.doc_url)).Nodup ∧
      normalize_url (pyOr (some "http://www.example.com/a/") "").data ≠ []) ∧
    (save_items
        (save_items []
          [⟨some "Qatar", some "PSA", some "T", some "http://www.example.com/a/",
            some "https://psa.example", some "html", none⟩])
        [⟨some "Qatar", some "PSA", some "T", some "http://www.example.com/a/",
          some "https://psa.example", some "html", none⟩]).countP
      (fun r => r.doc_url ==
        String.mk (normalize_url (pyOr (some "http://www.example.com/a/") "").data)) = 1 :=
  ⟨⟨by decide, by decide⟩,
    (claim_C2_idempotent_upsert []
      ⟨some "Qatar", some "PSA", some "T", some "http://www.example.com/a/",
        some "https://psa.example", some "html", none⟩
      (by decide) (by decide)).1⟩

/-! ## C5 — helper lemmas on `fetch_first_ok` -/

/-- The inner candidate pass returns exactly the first HTTP-200 hit, in
candidate-list order, whatever `last_err` it was threaded. -/
theorem passFirstOk_spec (g : String → GetOutcome) :
    ∀ (urls : List String) (le : Option String),
      (passFirstOk g urls le).1 = urls.findSome? (hitPass g) := by
  intro urls
  induction urls with
  | nil =>
    intro le
    rfl
  | cons u rest ih =>
    intro le
    cases hgu : g u with
    | resp r =>
      by_cases h2 : (r.status == 200) = true
      · have hhit : hitPass g u = some r := by
          simp only [hitPass, hgu]
          rw [if_pos h2]
        simp only [passFirstOk, hgu]
        rw [if_pos h2]
        simp only [List.findSome?_cons, hhit]
      · have hhit : hitPass g u = none := by
          simp only [hitPass, hgu]
          rw [if_neg h2]
        simp only [passFirstOk, hgu]
        rw [if_neg h2]
        simp only [List.findSome?_cons, hhit]
        exact ih _
    | exn m =>
      have hhit : hitPass g u = none := by
        simp only [hitPass, hgu]
      simp only [passFirstOk, hgu, List.findSome?_cons, hhit]
      exact ih _

/-- Flattening one pass of the lexicographic try order. -/
theorem lexTries_cons (a : Nat) (rest : List Nat) (urls : List String) :
    lexTries (a :: rest) urls = urls.map (fun u => (a, u)) ++ lexTries rest urls := by
  simp [lexTries]

/-- Hits within a fixed pass agree with the per-pass hit function. -/
theorem hit200_pass (g : Nat → String → GetOutcome) (a : Nat) :
    (hit200 g ∘ fun u => (a, u)) = hitPass (g a) := rfl

/-- First hit over a pass-prefixed try order: the pass's own first 200,
else the first hit of the remaining passes. -/
theorem findSome?_lexTries_cons (g : Nat → String → GetOutcome) (a : Nat) (rest : List Nat)
    (urls : List String) :
    List.findSome? (hit200 g) (lexTries (a :: rest) urls) =
      ((passFirstOk (g a) urls none).1).or
        (List.findSome? (hit200 g) (lexTries rest urls)) := by
  rw [lexTries_cons, List.findSome?_append, List.findSome?_map, hit200_pass,
    ← passFirstOk_spec]

/-- Full specification of the attempt loop over an attempt-number range:
the result is the first HTTP-200 of the lexicographic try order, and the
performed sleeps are the consecutive backoff multipliers of the failed
non-final passes. -/
theorem fetchGo_spec (g : Nat → String → GetOutcome) (urls : List String) :
    ∀ n a : Nat,
      (fetchGo g urls (List.range' a n)).1 =
        List.findSome? (hit200 g) (lexTries (List.range' a n) urls) ∧
      ∃ m, m ≤ n - 1 ∧ (fetchGo g urls (List.range' a n)).2 = List.range' (a + 1) m ∧
        ((fetchGo g urls (List.range' a n)).1 = none → m = n - 1) := by
  intro n
  induction n with
  | zero =>
    intro a
    exact ⟨rfl, 0, Nat.le_refl 0, rfl, fun _ => rfl⟩
  | succ k ih =>
    intro a
    have hcons : List.range' a (k + 1) = a :: List.range' (a + 1) k := rfl
    cases hres : (passFirstOk (g a) urls none).1 with
    | some r =>
      have hfg : fetchGo g urls (List.range' a (k + 1)) = (some r, []) := by
        rw [hcons]
        simp only [fetchGo, hres]
      refine ⟨?_, 0, Nat.zero_le _, ?_, ?_⟩
      · rw [hfg, hcons, findSome?_lexTries_cons, hres]
        rfl
      · rw [hfg]
        rfl
      · intro hcontra
        rw [hfg] at hcontra
        cases hcontra
    | none =>
      cases k with
      | zero =>
        have hfg : fetchGo g urls (List.range' a 1) = (none, []) := by
          rw [hcons]
          simp [fetchGo, hres]
        refine ⟨?_, 0, Nat.le_refl 0, ?_, fun _ => rfl⟩
        · rw [hfg, hcons, findSome?_lexTries_cons, hres]
          rfl
        · rw [hfg]
          rfl
      | succ k2 =>
        obtain ⟨ih1, m, hmle, hsleeps, hnone⟩ := ih (a + 1)
        have hne : (List.range' (a + 1) (k2 + 1)).isEmpty = false := rfl
        have hfg : fetchGo g urls (List.range' a (k2 + 2)) =
            ((fetchGo g urls (List.range' (a + 1) (k2 + 1))).1,
              (a + 1) :: (fetchGo g urls (List.range' (a + 1) (k2 + 1))).2) := by
          rw [hcons]
          simp only [fetchGo, hres, hne, Bool.false_eq_true, if_false]
        refine ⟨?_, m + 1, by omega, ?_, ?_⟩
        · rw [hfg, hcons, findSome?_lexTries_cons, hres, ih1]
          rfl
        · rw [hfg, hsleeps]
          rfl
        · intro hn
          rw [hfg] at hn
          have := hnone hn
          omega

/-! ## C5 — resilient fetch contract -/

/-- C5: `fetch_first_ok` tries candidates in list order pass by pass and
returns the first HTTP-200 response of that order immediately; after each
failed non-final pass it sleeps with a linearly increasing backoff
(multipliers `1, 2, …` of the 1.2-second unit), repeating the full pass
up to the retry budget; when every attempt fails — including when every
`get` raises — it returns `none` after exactly `retries` sleeps, never
propagating an exception. -/
theorem claim_C5_fetch_first_ok (g : Nat → String → GetOutcome) (urls : List String)
    (retries : Nat) :
    (fetch_first_ok g urls retries).1 =
      List.findSome? (hit200 g) (lexTries (List.range (retries + 1)) urls) ∧
    (∀ r, (fetch_first_ok g urls retries).1 = some r → r.status = 200) ∧
    ∃ m, m ≤ retries ∧ (fetch_first_ok g urls retries).2 = List.range' 1 m ∧
      ((fetch_first_ok g urls retries).1 = none → m = retries) := by
  have h := fetchGo_spec g urls (retries + 1) 0
  have hrange : List.range (retries + 1) = List.range' 0 (retries + 1) :=
    List.range_eq_range' _
  refine ⟨?_, ?_, ?_⟩
  · unfold fetch_first_ok
    rw [hrange]
    exact h.1
  · intro r hr2
    unfold fetch_first_ok at hr2
    rw [hrange, h.1] at hr2
    obtain ⟨p, hp, hhit⟩ := List.exists_of_findSome?_eq_some hr2
    simp only [hit200] at hhit
    cases hg : g p.1 p.2 with
    | resp r2 =>
      simp only [hg] at hhit
      by_cases hst : (r2.status == 200) = true
      · rw [if_pos hst] at hhit
        have hrr := Option.some.inj hhit
        rw [← hrr]
        exact eq_of_beq hst
      · rw [if_neg hst] at hhit
        cases hhit
    | exn msg =>
      simp only [hg] at hhit
      cases hhit
  · obtain ⟨_, m, hle, hsleeps, hnone⟩ := h
    refine ⟨m, by omega, ?_, ?_⟩
    · unfold fetch_first_ok
      rw [hrange]
      exact hsleeps
    · intro hn
      unfold fetch_first_ok at hn
      rw [hrange] at hn
      have := hnone hn
      omega

/-- C5 witness: with an oracle that raises on every try except pass 1 of
candidate `b`, the fetcher returns that 200 response; its status is 200
by the theorem. -/
theorem claim_C5_witness :
    (fetch_first_ok
        (fun a u => if a == 1 && u == "b" then .resp ⟨200, "b"⟩ else .exn "ConnectError: boom")
        ["a", "b"] 2).1 = some ⟨200, "b"⟩ ∧
    (⟨200, "b"⟩ : HttpResp).status = 200 :=
  ⟨by decide,
    (claim_C5_fetch_first_ok
        (fun a u => if a == 1 && u == "b" then .resp ⟨200, "b"⟩ else .exn "ConnectError: boom")
        ["a", "b"] 2).2.1 ⟨200, "b"⟩ (by decide)⟩

end RegRadar
